import Mathlib

/-!
Verification of PondCast (`src/app.py`), a LAN file-exchange Flask server.

We give a shallow embedding of the request-handling core: the peer registry
(`ACTIVE_PEERS`), the bounded event log (`EVENT_LOG`, a deque with
`maxlen = 50` and `appendleft` insertion), the two global mode booleans
(`locked`, `file_pool`), the privacy-masking of filenames in `/api/status`,
and the file-route handlers (`/download`, `/api/file/delete`, `/upload`,
`/api/files/received`).

Modelling conventions:
* Wall-clock instants (`datetime.now()`, `time.time()`) are integers
  measured in microseconds (`datetime`'s native resolution);
  `timedelta(seconds = s)` is the integer `s * SECOND`, and
  `int(time.time() * 1000000)` is the instant itself. The display string
  produced by `strftime("%H:%M:%S")` is abstracted as the clock value
  (field `Event.time`).
* Python dicts are association lists in insertion order (Python dicts
  iterate in insertion order; inserting a fresh key appends at the end).
* Python sets (`LAST_ONLINE_IPS`) are lists; Python's set iteration order
  is unspecified, the model fixes the order in which the elements were
  collected, which no theorem below depends on.
* The filesystem is a list of the paths of the existing regular files;
  directories are tracked only where a handler's control flow inspects
  them (`list_received_files` receives directory listings as input).
* Path functions (`os.path.splitext`, `os.path.join`, `os.path.basename`)
  are modelled with POSIX separators (`/`).
* Python truthiness of an optional string (`if action:`, `event.get('filename')`)
  is: present and non-empty.
-/

namespace PondCast

/-- Model of `MAX_EVENTS = 50` (src/app.py line 58). -/
def MAX_EVENTS : Nat := 50

/-- One second, in the microsecond clock units of this model. -/
def SECOND : ℤ := 1000000

/-- Model of `PEER_TIMEOUT = 8` seconds (src/app.py line 75). -/
def PEER_TIMEOUT : ℤ := 8

/-- Model of `RELEASE_DIR` with its default value `"release"` (config default). -/
def RELEASE_DIR : String := "release"

/-- Model of `RECEIVED_DIR` with its default value `"received"` (config default). -/
def RECEIVED_DIR : String := "received"

/-- Index of the last occurrence of `c`, as in Python's `str.rfind`. -/
def lastIdx (c : Char) : List Char → Option Nat
  | [] => none
  | a :: as =>
    match lastIdx c as with
    | some i => some (i + 1)
    | none => if a = c then some 0 else none

/-- Boolean list-prefix test (helper for the substring test). -/
def isPre : List Char → List Char → Bool
  | [], _ => true
  | _ :: _, [] => false
  | a :: as, b :: bs => a = b && isPre as bs

/-- Boolean substring test on char lists: Python's `pat in s`. -/
def hasInf (pat : List Char) : List Char → Bool
  | [] => isPre pat []
  | b :: bs => isPre pat (b :: bs) || hasInf pat bs

/-- Python's `pat in s` on strings. -/
def hasInfS (s pat : String) : Bool := hasInf pat.data s.data

/-- Python truthiness of an optional string: present and non-empty. -/
def truthyS : Option String → Bool
  | none => false
  | some s => s ≠ ""

/-- Python's `s.startswith(pre)`. -/
def startsWithS (s pre : String) : Bool := isPre pre.data s.data

/-- Python's `s.endswith(suf)`. -/
def endsWithS (s suf : String) : Bool := isPre suf.data.reverse s.data.reverse

/-- Core of Python's `s.replace(pat, rep)`: replace every non-overlapping
occurrence, scanning left to right. (For the empty pattern — unreachable
from the handlers, which always pass non-empty patterns — this returns
the input unchanged.) -/
def replaceCore (pat rep : List Char) : List Char → List Char
  | [] => []
  | a :: as =>
    if pat ≠ [] ∧ isPre pat (a :: as) = true then
      rep ++ replaceCore pat rep (as.drop (pat.length - 1))
    else a :: replaceCore pat rep as
termination_by l => l.length
decreasing_by
  · simp only [List.length_cons, List.length_drop]
    omega
  · simp only [List.length_cons]
    omega

/-- Python's `s.replace(pat, rep)` with a non-empty pattern. -/
def replaceS (s pat rep : String) : String := ⟨replaceCore pat.data rep.data s.data⟩

/-- Model of `os.path.splitext` (POSIX): split at the last dot of the last path
component, provided a non-dot character precedes that dot within the
component (so dotfiles like `".bashrc"` have no extension). -/
def splitext (p : String) : String × String :=
  let l := p.data
  match lastIdx '.' l with
  | none => (p, "")
  | some d =>
    let start := match lastIdx '/' l with
      | none => 0
      | some s => s + 1
    if start ≤ d ∧ ((l.drop start).take (d - start)).any (fun c => c ≠ '.') then
      (⟨l.take d⟩, ⟨l.drop d⟩)
    else (p, "")

/-- Model of `get_masked_name` (src/app.py lines 126-133). The `except` fallback in
the source is unreachable for `str` inputs (`os.path.splitext` is total on
strings), so only the `try` path is modelled. -/
def get_masked_name (filename : String) : String :=
  if filename = "" then "***"
  else
    let ne := splitext filename
    if ne.1.length ≤ 2 then ne.1 ++ "***" ++ ne.2
    else ne.1.take 2 ++ "***" ++ ne.2

/-- One entry of `EVENT_LOG` (src/app.py lines 135-140). `time` abstracts
the `strftime` display string as the clock instant; `filename = none` both
for events recorded with `filename=None` and for events whose `filename`
key was deleted by the privacy filter. -/
structure Event where
  id : Int
  time : ℤ
  type : String
  msg : String
  ip : Option String
  filename : Option String
deriving DecidableEq, Repr

/-- Model of `add_event` (src/app.py lines 135-140): `EVENT_LOG.appendleft({...})` on
a deque with `maxlen = MAX_EVENTS`, which drops the rightmost (oldest)
entry when full. `id = int(time.time() * 1000000)`, which in microsecond
units is the instant `now` itself. -/
def add_event (now : ℤ) (type msg : String) (ip : Option String)
    (filename : Option String) (log : List Event) : List Event :=
  ({ id := now, time := now, type := type, msg := msg,
     ip := ip, filename := filename } :: log).take MAX_EVENTS

/-- The argument tuple of one `add_event` call (used to state properties of
sequences of record operations). -/
structure EvCall where
  now : ℤ
  type : String
  msg : String
  ip : Option String
  filename : Option String
deriving DecidableEq, Repr

/-- The event that `add_event` builds from one call's arguments. -/
def evtOf (c : EvCall) : Event :=
  { id := c.now, time := c.now, type := c.type, msg := c.msg,
    ip := c.ip, filename := c.filename }

/-- Running a sequence of `add_event` calls against a starting log. -/
def runCalls (cs : List EvCall) (log : List Event) : List Event :=
  cs.foldl (fun lg c => add_event c.now c.type c.msg c.ip c.filename lg) log

/-- Model of `is_local_admin` (src/app.py lines 116-118) as a function of the
request's remote address. -/
def is_local_admin (sender : String) : Bool :=
  sender = "127.0.0.1" || sender = "localhost"

/-- Python's `str.lower()`, restricted to ASCII case mapping (the
mobile-indicator substrings compared against it are ASCII). -/
def lowerS (s : String) : String := ⟨s.data.map Char.toLower⟩

/-- Model of `get_device_type` (src/app.py lines 120-124). -/
def get_device_type (user_agent : String) : String :=
  let ua := lowerS user_agent
  if hasInfS ua "android" || hasInfS ua "iphone" || hasInfS ua "ipad"
      || hasInfS ua "mobile" then "mobile"
  else "desktop"

/-- The per-event transformation of the `/api/status` privacy filter
(src/app.py lines 202-210): when the viewer is not admin, the file pool is
off, the event's actor differs from the viewer and the event carries a
(truthy) filename, replace every occurrence of the filename inside `msg`
by its masked form and delete the `filename` key. -/
def mask_event (is_admin pool : Bool) (sender : String) (e : Event) : Event :=
  if (!is_admin && !pool) && (e.ip != some sender) && truthyS e.filename then
    let original := e.filename.getD ""
    { e with msg := replaceS e.msg original (get_masked_name original),
             filename := none }
  else e

/-- One value of the `ACTIVE_PEERS` dict (src/app.py line 146):
`{'last_seen', 'action', 'action_time', 'device_type'}`. -/
structure PeerData where
  last_seen : ℤ
  action : String
  action_time : ℤ
  device_type : String
deriving DecidableEq, Repr

/-- Model of `ACTIVE_PEERS`: a Python dict, modelled as an association list in
insertion order. -/
abbrev Peers := List (String × PeerData)

/-- The device type actually stored by `record_activity` (src/app.py
line 144): the argument when truthy, else `get_device_type` of the
request's user agent. -/
def devOf (device_type : Option String) (ua : String) : String :=
  match device_type with
  | some d => if d = "" then get_device_type ua else d
  | none => get_device_type ua

/-- Model of `record_activity` (src/app.py lines 142-152). A fresh address gets a
new entry with `action = 'idle'` and `action_time = now`; an existing
address gets `last_seen` updated, then (if `action` is truthy) `action`
set with `action_time = now + timedelta(seconds=3)`, then `device_type`
refreshed. -/
def record_activity (peers : Peers) (now : ℤ) (ip : String)
    (action : Option String) (device_type : Option String) (ua : String) : Peers :=
  let dt := devOf device_type ua
  if (peers.any fun p => p.1 = ip) then
    peers.map fun p =>
      if p.1 = ip then
        (p.1,
          let d0 := { p.2 with last_seen := now }
          let d1 := if truthyS action then
              { d0 with action := action.getD "", action_time := now + 3 * SECOND }
            else d0
          if dt ≠ "" then { d1 with device_type := dt } else d1)
      else p
  else
    peers ++ [(ip, { last_seen := now, action := "idle", action_time := now,
                     device_type := dt })]

/-- The process-wide mutable state: `SERVER_STATE` (`locked`, `file_pool`),
`ACTIVE_PEERS`, `EVENT_LOG` and `LAST_ONLINE_IPS`. -/
structure ServerSt where
  locked : Bool
  file_pool : Bool
  peers : Peers
  eventLog : List Event
  lastOnlineIps : List String
deriving DecidableEq

/-- The staleness test of the sweeper (src/app.py line 161):
`now - data['last_seen'] > timedelta(seconds=PEER_TIMEOUT)`. -/
def staleB (now : ℤ) (d : PeerData) : Bool :=
  now - d.last_seen > PEER_TIMEOUT * SECOND

/-- The `to_remove` list computed by `check_peers_lifecycle`
(src/app.py lines 157-161), in dict iteration order. -/
def to_remove (peers : Peers) (now : ℤ) : List String :=
  (peers.filter fun p => staleB now p.2).map Prod.fst

/-- The `current_ips` set collected by `check_peers_lifecycle`
(src/app.py line 162), in dict iteration order. -/
def current_ips (peers : Peers) (now : ℤ) : List String :=
  (peers.filter fun p => !staleB now p.2).map Prod.fst

/-- The leave event appended for a removed peer (src/app.py line 165). -/
def leaveEvt (now : ℤ) (ip : String) : Event :=
  { id := now, time := now, type := "leave", msg := "已离线",
    ip := some ip, filename := none }

/-- Model of `check_peers_lifecycle` (src/app.py lines 154-169): reset expired
actions, delete stale peers (each deletion appends one `leave` event),
then append one `join` event per address newly present since the previous
snapshot (skipping `127.0.0.1`), and store the new snapshot. -/
def check_peers_lifecycle (s : ServerSt) (now : ℤ) : ServerSt :=
  let peers1 : Peers := s.peers.map fun p =>
    if p.2.action ≠ "idle" ∧ now > p.2.action_time then
      (p.1, { p.2 with action := "idle" })
    else p
  let rem := to_remove s.peers now
  let cur := current_ips s.peers now
  let peers2 : Peers := peers1.filter fun p => !rem.contains p.1
  let log2 := rem.foldl (fun lg ip => add_event now "leave" "已离线" (some ip) none lg)
    s.eventLog
  let newIps := cur.filter fun ip => !s.lastOnlineIps.contains ip
  let log3 := newIps.foldl
    (fun lg ip => if ip ≠ "127.0.0.1" then add_event now "join" "加入网络" (some ip) none lg
                  else lg)
    log2
  { s with peers := peers2, eventLog := log3, lastOnlineIps := cur }

/-- Model of `global_intercept` (src/app.py lines 173-180), the `before_request`
hook. Returns `(denied, state-after)`: `denied = true` models `abort(403)`,
which raises before any registry or log mutation, so the state component
is then unchanged. Otherwise non-local senders touching `/api/`, `/upload`
or `/download` paths are recorded in the registry. -/
def global_intercept (s : ServerSt) (remote endpoint path ua : String)
    (now : ℤ) : Bool × ServerSt :=
  if s.locked && !is_local_admin remote && endpoint ≠ "static" then (true, s)
  else
    let s' := if remote ≠ "127.0.0.1" && remote ≠ "localhost" &&
        (startsWithS path "/api/" || startsWithS path "/upload" ||
         startsWithS path "/download") then
        { s with peers := record_activity s.peers now remote none none ua }
      else s
    (false, s')

/-- The event list of the `/api/status` response (src/app.py lines
190-212): the sweeper runs first, then every logged event passes through
the privacy filter for this viewer. -/
def api_status_events (s : ServerSt) (sender : String) (now : ℤ) : List Event :=
  ((check_peers_lifecycle s now).eventLog).map
    (mask_event (is_local_admin sender) s.file_pool sender)

/-- Model of `os.path.join(a, b)` for two components (POSIX): an absolute second
component replaces the first; otherwise they are joined with exactly one
separator. -/
def joinPath (a b : String) : String :=
  if startsWithS b "/" then b
  else if a = "" then b
  else if endsWithS a "/" then a ++ b
  else a ++ "/" ++ b

/-- Model of `os.path.basename` (POSIX): everything after the last separator. -/
def basename (p : String) : String :=
  match lastIdx '/' p.data with
  | none => p
  | some i => ⟨p.data.drop (i + 1)⟩

/-- Model of `filename.split('/')[-1]` (src/app.py line 301). -/
def lastComponent (p : String) : String :=
  match lastIdx '/' p.data with
  | none => p
  | some i => ⟨p.data.drop (i + 1)⟩

/-- Index of the first occurrence of `c`, as in Python's `str.find`. -/
def firstIdx (c : Char) : List Char → Option Nat
  | [] => none
  | a :: as => if a = c then some 0 else
    match firstIdx c as with
    | some i => some (i + 1)
    | none => none

/-- Model of `filename.split('/', 1)` (src/app.py line 306): split at the first
separator only; `none` second component when no separator occurs. -/
def split1 (p : String) : String × Option String :=
  match firstIdx '/' p.data with
  | none => (p, none)
  | some i => (⟨p.data.take i⟩, some ⟨p.data.drop (i + 1)⟩)

/-- One entry of a directory listing, as the handlers observe it through
`os.listdir` + `os.path.isfile` + `os.path.getsize` + `os.path.getmtime`. -/
structure DirEnt where
  name : String
  isFile : Bool
  size : Nat
  mtime : ℤ
deriving DecidableEq, Repr

/-- One entry of the `RECEIVED_DIR` listing: a name, whether it is a
directory (`os.path.isdir`), and — when it is — its own listing. -/
structure RecDir where
  name : String
  isDir : Bool
  files : List DirEnt
deriving DecidableEq, Repr

/-- One file dict built by `list_received_files`. The Python dicts carry
different key sets per branch; absent keys are `none` / `false` here
(`path_key` absent in the client's own view, `upload_time` absent on
Server entries, `is_server_file` present only on Server entries). -/
structure FileItem where
  name : String
  size : Nat
  path_key : Option String
  upload_time : Option ℤ
  is_server_file : Bool
deriving DecidableEq, Repr

/-- A Server (release) entry of the pool view (src/app.py line 250). -/
def release_item (f : DirEnt) : FileItem :=
  { name := f.name, size := f.size, path_key := some ("__release__/" ++ f.name),
    upload_time := none, is_server_file := true }

/-- A received-file entry of a peer group (src/app.py line 258). -/
def recv_item (ipFolder : String) (f : DirEnt) : FileItem :=
  { name := f.name, size := f.size, path_key := some (ipFolder ++ "/" ++ f.name),
    upload_time := some f.mtime, is_server_file := false }

/-- A file entry of the client's own private view (src/app.py line 269). -/
def own_item (f : DirEnt) : FileItem :=
  { name := f.name, size := f.size, path_key := none,
    upload_time := some f.mtime, is_server_file := false }

/-- The sort key `x['upload_time']` (always present on sorted entries). -/
def upKey (i : FileItem) : ℤ := i.upload_time.getD 0

/-- Insert keeping a descending-by-`upKey` list sorted, placing the new
element after all elements with an equal or larger key (the insertion
point a stable sort gives the latest-processed element). -/
def insertDesc (x : FileItem) : List FileItem → List FileItem
  | [] => [x]
  | y :: ys => if upKey x > upKey y then x :: y :: ys else y :: insertDesc x ys

/-- Python's `list.sort(key=lambda x: x['upload_time'], reverse=True)`:
a stable descending sort by upload time (any stable sort computes the
same list, so an insertion sort models CPython's Timsort exactly). -/
def sortDesc (l : List FileItem) : List FileItem :=
  l.foldl (fun acc x => insertDesc x acc) []

/-- Sorted by upload time, most recent first. -/
def SortedDesc (l : List FileItem) : Prop :=
  l.Pairwise fun a b => upKey b ≤ upKey a

/-- The per-peer groups of the admin/pool view of `list_received_files`
(src/app.py lines 251-261): one group per subdirectory of `RECEIVED_DIR`
holding at least one regular file, in listing order, each group sorted by
upload time descending. -/
def peerGroups (received : List RecDir) : List (String × List FileItem) :=
  (received.filter fun r => r.isDir).filterMap fun r =>
    if ((r.files.filter fun f => f.isFile).map (recv_item r.name)).isEmpty then none
    else some (r.name, sortDesc ((r.files.filter fun f => f.isFile).map (recv_item r.name)))

/-- The response of `/api/files/received`. -/
inductive RecvResult where
  | grouped (role : String) (data : List (String × List FileItem))
      (my_ip : String) (pool_enabled : Bool)
  | own (role : String) (data : List FileItem) (pool_enabled : Bool)
deriving DecidableEq, Repr

/-- Model of `list_received_files` (src/app.py lines 238-271). Missing directories
are empty listings. The `Server` group exists exactly when the file pool
is active; the admin without the pool sees only the peer groups. -/
def list_received_files (sender : String) (pool : Bool)
    (release : List DirEnt) (received : List RecDir) : RecvResult :=
  let is_admin := is_local_admin sender
  if is_admin || pool then
    let serverPart : List (String × List FileItem) :=
      if pool then [("Server", (release.filter fun f => f.isFile).map release_item)]
      else []
    RecvResult.grouped (if pool && !is_admin then "pool_view" else "admin")
      (serverPart ++ peerGroups received) sender pool
  else
    let myFiles := match received.find? (fun r => r.name = sender) with
      | some r => (r.files.filter fun f => f.isFile).map own_item
      | none => []
    RecvResult.own "client" (sortDesc myFiles) false

/-- Outcome of `/api/file/delete`: success, or an error status with its
message. An uncaught `TypeError` (deleting type `received` with no path)
surfaces as a 500 from the framework. I/O errors of `os.remove` are not
modelled (removal of an existing path succeeds); the empty-directory
cleanup (`os.rmdir`) only touches directories, which the file-set model
does not track. -/
inductive DelResult where
  | ok
  | err (code : Nat) (msg : String)
deriving DecidableEq, Repr

/-- Model of `delete_file` (src/app.py lines 273-294). State threaded: the file
set and the event log. The `delete` event is appended only on the success
path, after `os.remove`. -/
def delete_file (sender : String) (dtype dpath : Option String)
    (fs : List String) (log : List Event) (now : ℤ) :
    DelResult × List String × List Event :=
  if !is_local_admin sender then (.err 403 "Permission denied", fs, log)
  else
    let fno := if truthyS dpath then basename (dpath.getD "") else "未知文件"
    let relBranch := dtype = some "release" ||
      (truthyS dpath && startsWithS (dpath.getD "") "__release__/")
    let clean := if truthyS dpath then replaceS (dpath.getD "") "__release__/" ""
      else ""
    let fullPath : Option String :=
      if relBranch then some (joinPath RELEASE_DIR clean)
      else if dtype = some "received" then
        (if dpath = none then none else some (joinPath RECEIVED_DIR (dpath.getD "")))
      else none
    let nameOnly := if relBranch then clean else fno
    if dtype = some "received" ∧ dpath = none then (.err 500 "TypeError", fs, log)
    else if fullPath ≠ none ∧ fs.contains (fullPath.getD "") then
      (.ok, fs.erase (fullPath.getD ""),
       add_event now "delete" ("删除了 " ++ nameOnly) (some "Server")
         (some nameOnly) log)
    else (.err 404 "File not found", fs, log)

/-- Outcome of `/download/<path:filename>`: the path of the file handed to
`send_from_directory`, or a 404. `send_from_directory` is modelled as
succeeding exactly when the resolved path is an existing file. -/
inductive DlResult where
  | sent (path : String)
  | notFound
deriving DecidableEq, Repr

/-- Existence test for a received-files directory: the model tracks
regular files only, so a directory exists when some file lies under it. -/
def dirExists (fs : List String) (dir : String) : Bool :=
  fs.any fun p => startsWithS p (dir ++ "/")

/-- Model of `download_file` (src/app.py lines 296-310). The path-traversal guard
(`'..' in filename or filename.startswith('/')`) aborts 404 before any
activity or event is recorded; past the guard, the `download` event is
appended before the file is resolved, so it is appended whether or not
the download succeeds. -/
def download_file (filename sender : String) (pool : Bool)
    (fs : List String) (peers : Peers) (log : List Event) (now : ℤ)
    (ua : String) : DlResult × Peers × List Event :=
  if hasInfS filename ".." || startsWithS filename "/" then (.notFound, peers, log)
  else
    let peers1 := if sender ≠ "127.0.0.1" then
        record_activity peers now sender (some "download") none ua
      else peers
    let dn := lastComponent filename
    let log1 := add_event now "download" ("下载了 " ++ dn)
      (some (if sender ≠ "127.0.0.1" then sender else "Server")) (some dn) log
    let res : DlResult :=
      if startsWithS filename "__release__/" then
        let n := replaceS filename "__release__/" ""
        if fs.contains (joinPath RELEASE_DIR n) then .sent (joinPath RELEASE_DIR n)
        else .notFound
      else if fs.contains (joinPath RELEASE_DIR filename) then
        .sent (joinPath RELEASE_DIR filename)
      else if is_local_admin sender || pool then
        match split1 filename with
        | (first, some rest) =>
          let targetDir := joinPath RECEIVED_DIR first
          if dirExists fs targetDir then
            if fs.contains (joinPath targetDir rest) then
              .sent (joinPath targetDir rest)
            else .notFound
          else .notFound
        | (_, none) => .notFound
      else .notFound
    (res, peers1, log1)

/-- The accumulator loop of `upload_file` (src/app.py lines 319-327):
skip falsy (empty) filenames; resolve the target path, prefixing a
timestamp when the path already exists; save (the file set gains the
path); count and remember the last original filename. Returns
`(saved paths, file set, count, last filename)`. -/
def upload_loop (save_dir ts : String) :
    List String → List String → List String → Nat → String →
    List String × List String × Nat × String
  | [], saved, fs, count, last => (saved, fs, count, last)
  | f :: rest, saved, fs, count, last =>
    if f ≠ "" then
      let p0 := joinPath save_dir f
      let p := if fs.contains p0 then joinPath save_dir (ts ++ f) else p0
      upload_loop save_dir ts rest (saved ++ [p]) (fs ++ [p]) (count + 1) f
    else upload_loop save_dir ts rest saved fs count last

/-- The result of `/upload`: paths passed to `file.save`, the file set,
the peer registry, the event log, and the saved count of the response. -/
structure UpResult where
  saved : List String
  fs : List String
  peers : Peers
  log : List Event
  count : Nat
deriving DecidableEq, Repr

/-- Model of `upload_file` (src/app.py lines 312-333). `ts` stands for the rename
prefix `datetime.now().strftime("%H%M%S_")`; `files` is the list of
client-supplied filenames (`werkzeug` passes them through unmodified).
An `upload` event is recorded only when at least one file was saved; it
carries the (single) filename exactly when the count is 1. -/
def upload_file (files : List String) (sender : String)
    (fs : List String) (peers : Peers) (log : List Event) (now : ℤ)
    (ua ts : String) : UpResult :=
  let is_admin := is_local_admin sender
  let peers1 := if !is_admin then
      record_activity peers now sender (some "upload") none ua
    else peers
  let save_dir := if is_admin then RELEASE_DIR else joinPath RECEIVED_DIR sender
  let r := upload_loop save_dir ts files [] fs 0 ""
  let log1 :=
    if r.2.2.1 > 0 then
      let msg := if r.2.2.1 = 1 then "上传了 " ++ r.2.2.2
        else "上传了 " ++ toString r.2.2.1 ++ " 个文件"
      let recorded := if r.2.2.1 = 1 then some r.2.2.2 else none
      add_event now "upload" msg (some (if !is_admin then sender else "Server"))
        recorded log
    else log
  { saved := r.1, fs := r.2.1, peers := peers1, log := log1, count := r.2.2.1 }

/-! ## Theorems -/

theorem take_append_take {α : Type} (a b : List α) (n : Nat) :
    (a ++ b.take n).take n = (a ++ b).take n := by
  rw [List.take_append_eq_append_take, List.take_append_eq_append_take,
    List.take_take, Nat.min_eq_left (Nat.sub_le n a.length)]

theorem add_event_eq (now : ℤ) (t m : String) (i f : Option String)
    (log : List Event) :
    add_event now t m i f log = (evtOf ⟨now, t, m, i, f⟩ :: log).take MAX_EVENTS := rfl

theorem runCalls_eq : ∀ (cs : List EvCall) (init : List Event),
    init.length ≤ MAX_EVENTS →
    runCalls cs init = ((cs.map evtOf).reverse ++ init).take MAX_EVENTS := by
  intro cs
  induction cs with
  | nil =>
    intro init h
    simp [runCalls, List.take_of_length_le h]
  | cons c cs ih =>
    intro init h
    have step : runCalls (c :: cs) init =
        runCalls cs ((evtOf c :: init).take MAX_EVENTS) := rfl
    rw [step, ih _ (List.length_take_le _ _), take_append_take]
    simp

theorem devOf_ne_empty (dev : Option String) (ua : String) : devOf dev ua ≠ "" := by
  have hg : get_device_type ua ≠ "" := by
    show (if (hasInfS (lowerS ua) "android" || hasInfS (lowerS ua) "iphone"
        || hasInfS (lowerS ua) "ipad" || hasInfS (lowerS ua) "mobile") = true
      then "mobile" else "desktop") ≠ ""
    split <;> simp
  unfold devOf
  match dev with
  | none => exact hg
  | some d =>
    by_cases hd : d = "" <;> simp [hd, hg]

/-- C3: the masking function keeps the first two characters of the base
name (before the extension) and the extension, with the fixed marker
`"***"` in between; base names of length at most 2 are kept whole (the
empty filename also lands on this shape). The Lean function is total, so
no input — extensionless or non-ASCII — can raise; in particular
`"report.pdf"` masks to `"re***.pdf"`. -/
theorem get_masked_name_spec :
    (∀ f : String, get_masked_name f =
      (if (splitext f).1.length ≤ 2 then (splitext f).1 else (splitext f).1.take 2)
        ++ "***" ++ (splitext f).2) ∧
    get_masked_name "report.pdf" = "re***.pdf" ∧
    get_masked_name "README" = "RE***" ∧
    get_masked_name "文件名称.txt" = "文件***.txt" ∧
    get_masked_name "ab" = "ab***" := by
  refine ⟨?_, by decide, by decide, by decide, by decide⟩
  intro f
  by_cases hf : f = ""
  · subst hf; decide
  · by_cases h2 : (splitext f).1.length ≤ 2 <;> simp [get_masked_name, hf, h2]

/-- C4: the event log is a ring buffer of capacity `MAX_EVENTS = 50`:
any sequence of `add_event` calls leaves the most recent 50 events, most
recent first; recording into a full log drops the tail; after
`capacity + 1` insertions the first-inserted event is gone (unless
re-inserted later) and the last-inserted one is at the head. -/
theorem event_log_ring : ∀ (cs : List EvCall) (lg : List Event) (c : EvCall),
    (runCalls cs []).length ≤ MAX_EVENTS ∧
    runCalls cs [] = ((cs.map evtOf).reverse).take MAX_EVENTS ∧
    (lg.length = MAX_EVENTS → runCalls [c] lg = evtOf c :: lg.dropLast) ∧
    (∀ rest, cs = rest ++ [c] → (runCalls cs []).head? = some (evtOf c)) ∧
    (∀ rest, cs = c :: rest → rest.length = MAX_EVENTS →
      evtOf c ∉ rest.map evtOf → evtOf c ∉ runCalls cs []) := by
  intro cs lg c
  have hchar : runCalls cs [] = ((cs.map evtOf).reverse).take MAX_EVENTS := by
    rw [runCalls_eq cs [] (by simp), List.append_nil]
  refine ⟨?_, hchar, ?_, ?_, ?_⟩
  · rw [hchar]; exact List.length_take_le _ _
  · intro hlen
    have h1 : runCalls [c] lg = (evtOf c :: lg).take MAX_EVENTS := rfl
    rw [h1, List.dropLast_eq_take, hlen]
    show (evtOf c :: lg).take (49 + 1) = evtOf c :: lg.take (49 + 1 - 1)
    rw [List.take_succ_cons]
  · intro rest hcs
    subst hcs
    rw [hchar]
    simp [List.take_succ_cons, MAX_EVENTS]
  · intro rest hcs hlen hnot
    subst hcs
    rw [hchar]
    have hrev : ((c :: rest).map evtOf).reverse =
        (rest.map evtOf).reverse ++ [evtOf c] := by simp
    rw [hrev]
    have hl : ((rest.map evtOf).reverse).length = MAX_EVENTS := by
      simp [hlen]
    rw [← hl, List.take_left]
    simp only [List.mem_reverse]
    exact hnot

/-- Witness for `event_log_ring`: a concrete full log whose tail is
evicted by the next record, and a concrete sequence of 51 distinct calls
after which the first-recorded event is absent. -/
theorem event_log_ring_witness :
    runCalls [⟨51, "t", "m", none, none⟩]
        ((List.range 50).map fun i => evtOf ⟨(0 : ℤ), "t", toString i, none, none⟩) =
      evtOf ⟨51, "t", "m", none, none⟩ ::
        ((List.range 50).map fun i =>
          evtOf ⟨(0 : ℤ), "t", toString i, none, none⟩).dropLast ∧
    evtOf ⟨(0 : ℤ), "t", "first", none, none⟩ ∉
      runCalls (⟨(0 : ℤ), "t", "first", none, none⟩ ::
        ((List.range 50).map fun i => ⟨(0 : ℤ), "t", toString i, none, none⟩)) [] := by
  constructor
  · exact (event_log_ring []
      ((List.range 50).map fun i => evtOf ⟨(0 : ℤ), "t", toString i, none, none⟩)
      ⟨51, "t", "m", none, none⟩).2.2.1 (by simp [MAX_EVENTS])
  · exact (event_log_ring (⟨(0 : ℤ), "t", "first", none, none⟩ ::
        ((List.range 50).map fun i => ⟨(0 : ℤ), "t", toString i, none, none⟩)) []
      ⟨(0 : ℤ), "t", "first", none, none⟩).2.2.2.2
      ((List.range 50).map fun i => ⟨(0 : ℤ), "t", toString i, none, none⟩)
      rfl (by simp [MAX_EVENTS]) (by decide)

/-- C1: while `locked`, a request whose origin is not the admin loopback
address and whose endpoint is not the exempt `static` endpoint is denied
with the maintenance-mode 403 by the request-wide gate, and the returned
state is exactly the input state — no peer-registry or event-log mutation;
an admin request under the same conditions is not denied (and, being
local, leaves the state unchanged too). -/
theorem locked_gate : ∀ (s : ServerSt) (remote endpoint path ua : String) (now : ℤ),
    s.locked = true →
    (is_local_admin remote = false → endpoint ≠ "static" →
      global_intercept s remote endpoint path ua now = (true, s)) ∧
    (is_local_admin remote = true →
      (global_intercept s remote endpoint path ua now).1 = false ∧
      (global_intercept s remote endpoint path ua now).2 = s) := by
  intro s remote endpoint path ua now hlock
  constructor
  · intro hadm hep
    simp [global_intercept, hlock, hadm, hep]
  · intro hadm
    have hor : remote = "127.0.0.1" ∨ remote = "localhost" := by
      simpa [is_local_admin] using hadm
    rcases hor with h | h <;> subst h <;>
      simp [global_intercept, hlock, is_local_admin]

/-- Witness for `locked_gate`: a concrete locked state in which a remote
peer's status request is denied without mutation and the admin's is not. -/
theorem locked_gate_witness :
    global_intercept ⟨true, false, [], [], []⟩ "10.0.0.2" "api_status" "/api/status" "ua" 0 =
      (true, ⟨true, false, [], [], []⟩) ∧
    (global_intercept ⟨true, false, [], [], []⟩ "127.0.0.1" "api_status" "/api/status" "ua" 0).1 =
      false := by
  constructor
  · exact (locked_gate ⟨true, false, [], [], []⟩ "10.0.0.2" "api_status" "/api/status"
      "ua" 0 rfl).1 (by decide) (by decide)
  · exact ((locked_gate ⟨true, false, [], [], []⟩ "127.0.0.1" "api_status" "/api/status"
      "ua" 0 rfl).2 (by decide)).1

/-- C2: an event of a status response is masked (filename stripped and the
filename substring of the message replaced by the masked form) exactly
when the viewer is not admin, the file pool is off, the event's actor
differs from the viewer and the event carries a filename; the response's
event list is the masked image of the post-sweep log. -/
theorem status_masking : ∀ (is_admin pool : Bool) (sender : String) (e : Event),
    (mask_event is_admin pool sender e ≠ e ↔
      (is_admin = false ∧ pool = false ∧ e.ip ≠ some sender ∧
        truthyS e.filename = true)) ∧
    ((is_admin = false ∧ pool = false ∧ e.ip ≠ some sender ∧
        truthyS e.filename = true) →
      (mask_event is_admin pool sender e).filename = none ∧
      (mask_event is_admin pool sender e).msg =
        replaceS e.msg (e.filename.getD "") (get_masked_name (e.filename.getD ""))) ∧
    (∀ (s : ServerSt) (now : ℤ), is_admin = is_local_admin sender →
      pool = s.file_pool → e ∈ (check_peers_lifecycle s now).eventLog →
      mask_event is_admin pool sender e ∈ api_status_events s sender now) := by
  intro is_admin pool sender e
  have hcnd : (((!is_admin && !pool) && (e.ip != some sender) && truthyS e.filename) = true)
      ↔ (is_admin = false ∧ pool = false ∧ e.ip ≠ some sender ∧
        truthyS e.filename = true) := by
    simp [Bool.and_eq_true, bne_iff_ne, and_assoc]
  refine ⟨?_, ?_, ?_⟩
  · by_cases hc : ((!is_admin && !pool) && (e.ip != some sender) && truthyS e.filename) = true
    · rw [mask_event, if_pos hc]
      constructor
      · intro _; exact hcnd.1 hc
      · intro hcond heq
        have hfn : truthyS e.filename = true := (hcnd.1 hc).2.2.2
        have : (none : Option String) = e.filename := congrArg Event.filename heq
        rw [← this] at hfn
        simp [truthyS] at hfn
    · rw [mask_event, if_neg hc]
      simp only [ne_eq, not_true_eq_false, false_iff]
      intro hcond
      exact hc (hcnd.2 hcond)
  · intro hcond
    rw [mask_event, if_pos (hcnd.2 hcond)]
    exact ⟨rfl, rfl⟩
  · intro s now hia hp hmem
    subst hia; subst hp
    exact List.mem_map_of_mem _ hmem

/-- Witness for `status_masking`: a concrete upload event by peer
10.0.0.5, viewed by peer 10.0.0.9 with the pool off, loses its `filename`
field and has `report.pdf` replaced by `re***.pdf` in its message. -/
theorem status_masking_witness :
    (mask_event false false "10.0.0.9"
      ⟨1, 1, "upload", "上传了 report.pdf", some "10.0.0.5", some "report.pdf"⟩).filename
      = none ∧
    (mask_event false false "10.0.0.9"
      ⟨1, 1, "upload", "上传了 report.pdf", some "10.0.0.5", some "report.pdf"⟩).msg
      = replaceS "上传了 report.pdf" "report.pdf" (get_masked_name "report.pdf") :=
  (status_masking false false "10.0.0.9"
    ⟨1, 1, "upload", "上传了 report.pdf", some "10.0.0.5", some "report.pdf"⟩).2.1
    ⟨rfl, rfl, by decide, rfl⟩

/-- C6 counterexample: `record_activity` on an unseen address with
`action = "upload"` creates the entry with `action = "idle"` and
`action_time = now` — the `action` argument is ignored for a new address,
contradicting the claim's "including when the address is new". -/
theorem record_activity_new_counterexample :
    record_activity [] 10 "A" (some "upload") none "Mozilla" =
      [("A", ⟨10, "idle", 10, "desktop"⟩)] ∧
    (record_activity [] 10 "A" (some "upload") none "Mozilla").all
      (fun p => p.2.action ≠ "upload") = true := by
  constructor
  · decide
  · decide

/-- C6 (amended): `record_activity` inserts a fresh entry with
`action = "idle"` and expiry `now` for an unseen address, ignoring the
`action` argument there; for a seen address it updates `last_seen`
unconditionally and, when an action is supplied, sets the action and
pushes its expiry to `now + 3` seconds. -/
theorem record_activity_spec : ∀ (peers : Peers) (now : ℤ) (ip : String)
    (act dev : Option String) (ua : String),
    ((∀ q ∈ peers, q.1 ≠ ip) →
      record_activity peers now ip act dev ua =
        peers ++ [(ip, ⟨now, "idle", now, devOf dev ua⟩)]) ∧
    (∀ pd, (ip, pd) ∈ peers → truthyS act = true →
      (ip, ⟨now, act.getD "", now + 3 * SECOND, devOf dev ua⟩) ∈
        record_activity peers now ip act dev ua) ∧
    (∀ pd, (ip, pd) ∈ peers → truthyS act = false →
      (ip, ⟨now, pd.action, pd.action_time, devOf dev ua⟩) ∈
        record_activity peers now ip act dev ua) := by
  intro peers now ip act dev ua
  refine ⟨?_, ?_, ?_⟩
  · intro hnone
    have hany : (peers.any fun p => p.1 = ip) = false := by
      simp only [List.any_eq_false]
      intro p hp
      simpa using hnone p hp
    rw [record_activity, hany]
    simp
  · intro pd hmem htr
    have hany : (peers.any fun p => p.1 = ip) = true := by
      simp only [List.any_eq_true]
      exact ⟨(ip, pd), hmem, by simp⟩
    rw [record_activity, hany]
    simp only [if_true]
    have himg := List.mem_map_of_mem (f := fun p : String × PeerData =>
      if p.1 = ip then
        (p.1,
          let d0 := { p.2 with last_seen := now }
          let d1 := if truthyS act then
              { d0 with action := act.getD "", action_time := now + 3 * SECOND }
            else d0
          if devOf dev ua ≠ "" then { d1 with device_type := devOf dev ua } else d1)
      else p) hmem
    simpa [htr, devOf_ne_empty dev ua] using himg
  · intro pd hmem htr
    have hany : (peers.any fun p => p.1 = ip) = true := by
      simp only [List.any_eq_true]
      exact ⟨(ip, pd), hmem, by simp⟩
    rw [record_activity, hany]
    simp only [if_true]
    have himg := List.mem_map_of_mem (f := fun p : String × PeerData =>
      if p.1 = ip then
        (p.1,
          let d0 := { p.2 with last_seen := now }
          let d1 := if truthyS act then
              { d0 with action := act.getD "", action_time := now + 3 * SECOND }
            else d0
          if devOf dev ua ≠ "" then { d1 with device_type := devOf dev ua } else d1)
      else p) hmem
    simpa [htr, devOf_ne_empty dev ua] using himg

/-- Witness for `record_activity_spec`: a concrete fresh insert (action
ignored) and a concrete update of a seen peer that applies the action
with expiry `now + 3s`. -/
theorem record_activity_spec_witness :
    record_activity [] 5 "B" none none "curl" =
      [("B", ⟨5, "idle", 5, devOf none "curl"⟩)] ∧
    ("A", ⟨10, "upload", 10 + 3 * SECOND, devOf none "curl"⟩) ∈
      record_activity [("A", ⟨1, "idle", 1, "desktop"⟩)] 10 "A" (some "upload")
        none "curl" := by
  constructor
  · exact (record_activity_spec [] 5 "B" none none "curl").1 (by simp)
  · exact (record_activity_spec [("A", ⟨1, "idle", 1, "desktop"⟩)] 10 "A"
      (some "upload") none "curl").2.1 ⟨1, "idle", 1, "desktop"⟩
      (by simp) (by decide)

/-- C5: for a registered peer `P` whose last request is more than
`PEER_TIMEOUT` (8 s) old, the next sweep removes `P` from the registry;
`P` occurs exactly once in the sweep's removal list, so exactly one
`leave` event for `P`'s address is appended (one `add_event` per removal
list entry, src/app.py lines 163-165). -/
theorem sweep_removes_stale : ∀ (s : ServerSt) (now : ℤ) (P : String) (d : PeerData),
    (s.peers.map Prod.fst).Nodup →
    (P, d) ∈ s.peers →
    now - d.last_seen > PEER_TIMEOUT * SECOND →
    P ∉ ((check_peers_lifecycle s now).peers.map Prod.fst) ∧
    (to_remove s.peers now).count P = 1 ∧
    ((to_remove s.peers now).map (leaveEvt now)).count (leaveEvt now P) = 1 := by
  intro s now P d hnd hmem htime
  have hstale : staleB now d = true := by
    simp only [staleB, decide_eq_true_eq]
    exact htime
  have hmemf : (P, d) ∈ s.peers.filter (fun p => staleB now p.2) :=
    List.mem_filter.2 ⟨hmem, hstale⟩
  have hPrem : P ∈ to_remove s.peers now := by
    unfold to_remove
    exact List.mem_map_of_mem Prod.fst hmemf
  have hsub : (to_remove s.peers now).Sublist (s.peers.map Prod.fst) := by
    unfold to_remove
    exact (List.filter_sublist _).map _
  have hnd2 : (to_remove s.peers now).Nodup := hnd.sublist hsub
  refine ⟨?_, List.count_eq_one_of_mem hnd2 hPrem, ?_⟩
  · intro hin
    rcases List.mem_map.1 hin with ⟨q, hq, hqP⟩
    have hq' : q ∈ (s.peers.map fun p =>
        if p.2.action ≠ "idle" ∧ now > p.2.action_time then
          (p.1, { p.2 with action := "idle" }) else p).filter
          (fun p => !(to_remove s.peers now).contains p.1) := by
      simpa [check_peers_lifecycle] using hq
    have hcond := (List.mem_filter.1 hq').2
    rw [hqP] at hcond
    rw [Bool.not_eq_true'] at hcond
    have : P ∉ to_remove s.peers now := by simpa using hcond
    exact this hPrem
  · have hinj : Function.Injective (leaveEvt now) := by
      intro a b hab
      have := congrArg Event.ip hab
      simpa [leaveEvt] using this
    rw [List.count_map_of_injective _ _ hinj]
    exact List.count_eq_one_of_mem hnd2 hPrem

/-- Witness for `sweep_removes_stale`: one peer, silent for 9 seconds, is
removed by the sweep at `now = 9s`, with exactly one leave event. -/
theorem sweep_removes_stale_witness :
    "A" ∉ ((check_peers_lifecycle
        ⟨false, false, [("A", ⟨0, "idle", 0, "desktop"⟩)], [], []⟩
        9000000).peers.map Prod.fst) ∧
    (to_remove [("A", ⟨0, "idle", 0, "desktop"⟩)] 9000000).count "A" = 1 ∧
    ((to_remove [("A", ⟨0, "idle", 0, "desktop"⟩)] 9000000).map
      (leaveEvt 9000000)).count (leaveEvt 9000000 "A") = 1 :=
  sweep_removes_stale ⟨false, false, [("A", ⟨0, "idle", 0, "desktop"⟩)], [], []⟩
    9000000 "A" ⟨0, "idle", 0, "desktop"⟩ (by decide) (by decide) (by decide)

theorem mem_insertDesc (x y : FileItem) (l : List FileItem) :
    y ∈ insertDesc x l ↔ y = x ∨ y ∈ l := by
  induction l with
  | nil => simp [insertDesc]
  | cons a as ih =>
    by_cases h : upKey x > upKey a
    · simp [insertDesc, h]
    · simp [insertDesc, h, ih]
      tauto

theorem insertDesc_sorted (x : FileItem) (l : List FileItem) (h : SortedDesc l) :
    SortedDesc (insertDesc x l) := by
  induction l with
  | nil => simp [insertDesc, SortedDesc]
  | cons a as ih =>
    rcases List.pairwise_cons.1 h with ⟨ha, has⟩
    by_cases hx : upKey x > upKey a
    · rw [insertDesc, if_pos hx]
      refine List.pairwise_cons.2 ⟨?_, h⟩
      intro b hb
      rcases List.mem_cons.1 hb with rfl | hb
      · exact le_of_lt hx
      · exact le_trans (ha b hb) (le_of_lt hx)
    · rw [insertDesc, if_neg hx]
      refine List.pairwise_cons.2 ⟨?_, ih has⟩
      intro b hb
      rcases (mem_insertDesc x b as).1 hb with rfl | hb
      · exact le_of_not_lt hx
      · exact ha b hb

theorem sortDesc_sorted (l : List FileItem) : SortedDesc (sortDesc l) := by
  suffices h : ∀ acc : List FileItem, SortedDesc acc →
      SortedDesc (l.foldl (fun acc x => insertDesc x acc) acc) by
    exact h [] (by simp [SortedDesc])
  induction l with
  | nil => intro acc h; exact h
  | cons a as ih => intro acc h; exact ih _ (insertDesc_sorted a acc h)

/-- C8 counterexample: the admin requests the received-files listing with
the file pool disabled while a published (release) file `a.txt` exists;
the returned structure is empty — the admin's own published files are
absent, contradicting "regardless of whether file pool mode is enabled". -/
theorem admin_listing_counterexample :
    list_received_files "127.0.0.1" false [⟨"a.txt", true, 5, 0⟩] [] =
      RecvResult.grouped "admin" [] "127.0.0.1" false := by decide

/-- C8 (amended): the admin's received-files listing contains the
`Server` group of published files only when the file pool is enabled; it
always contains one group per peer directory holding at least one file,
each group sorted by upload time descending. -/
theorem admin_listing_spec : ∀ (sender : String) (pool : Bool)
    (release : List DirEnt) (received : List RecDir),
    is_local_admin sender = true →
    (list_received_files sender pool release received =
      RecvResult.grouped "admin"
        ((if pool then
            [("Server", (release.filter fun f => f.isFile).map release_item)]
          else []) ++ peerGroups received) sender pool) ∧
    (∀ g ∈ peerGroups received, SortedDesc g.2) ∧
    (∀ r ∈ received, r.isDir = true →
      ((r.files.filter fun f => f.isFile).map (recv_item r.name)) ≠ [] →
      (r.name, sortDesc ((r.files.filter fun f => f.isFile).map (recv_item r.name))) ∈
        peerGroups received) := by
  intro sender pool release received hadm
  refine ⟨?_, ?_, ?_⟩
  · simp [list_received_files, hadm]
  · intro g hg
    rcases List.mem_filterMap.1 hg with ⟨r, hr, heq⟩
    by_cases he : ((r.files.filter fun f => f.isFile).map (recv_item r.name)).isEmpty
    · rw [if_pos he] at heq
      cases heq
    · rw [if_neg he] at heq
      have := Option.some.inj heq
      rw [← this]
      exact sortDesc_sorted _
  · intro r hr hdir hne
    apply List.mem_filterMap.2
    refine ⟨r, List.mem_filter.2 ⟨hr, by simp [hdir]⟩, ?_⟩
    rw [if_neg (by simpa using hne)]

/-- Witness for `admin_listing_spec`: a concrete admin listing with the
pool enabled, one release file and one peer directory. -/
theorem admin_listing_spec_witness :
    list_received_files "127.0.0.1" true [⟨"a.txt", true, 5, 0⟩]
        [⟨"10.0.0.5", true, [⟨"f1", true, 1, 5⟩, ⟨"f2", true, 1, 9⟩]⟩] =
      RecvResult.grouped "admin"
        ((if true then
            [("Server", (([⟨"a.txt", true, 5, 0⟩] : List DirEnt).filter
              fun f => f.isFile).map release_item)]
          else []) ++
          peerGroups [⟨"10.0.0.5", true, [⟨"f1", true, 1, 5⟩, ⟨"f2", true, 1, 9⟩]⟩])
        "127.0.0.1" true :=
  (admin_listing_spec "127.0.0.1" true [⟨"a.txt", true, 5, 0⟩]
    [⟨"10.0.0.5", true, [⟨"f1", true, 1, 5⟩, ⟨"f2", true, 1, 9⟩]⟩] (by decide)).1

/-- C9 counterexample: a download of a file that does not exist anywhere
returns NotFound, yet the event log has gained a `download` event — the
append happens before the file is resolved (src/app.py line 302 precedes
the existence checks). -/
theorem failed_download_logs_counterexample :
    (download_file "ghost.txt" "10.0.0.9" false [] [] [] 0 "ua").1 =
      DlResult.notFound ∧
    (download_file "ghost.txt" "10.0.0.9" false [] [] [] 0 "ua").2.2 =
      [⟨0, 0, "download", "下载了 ghost.txt", some "10.0.0.9", some "ghost.txt"⟩] := by
  exact ⟨by decide, by decide⟩

/-- C9 (amended): `delete_file` appends its `delete` event only on
success — every error outcome (permission, not-found, crash) leaves the
event log unchanged; `download_file`, however, appends its `download`
event as soon as the traversal guard passes, before resolving the file,
so the event is appended whether or not the download succeeds. -/
theorem event_log_on_outcome : ∀ (sender : String) (dtype dpath : Option String)
    (fs : List String) (log : List Event) (now : ℤ),
    (∀ code m, (delete_file sender dtype dpath fs log now).1 = .err code m →
      (delete_file sender dtype dpath fs log now).2.2 = log) ∧
    ((delete_file sender dtype dpath fs log now).1 = .ok →
      ∃ nm, (delete_file sender dtype dpath fs log now).2.2 =
        add_event now "delete" ("删除了 " ++ nm) (some "Server") (some nm) log) ∧
    (∀ (filename : String) (pool : Bool) (peers : Peers) (ua : String),
      (hasInfS filename ".." || startsWithS filename "/") = false →
      (download_file filename sender pool fs peers log now ua).2.2 =
        add_event now "download" ("下载了 " ++ lastComponent filename)
          (some (if sender ≠ "127.0.0.1" then sender else "Server"))
          (some (lastComponent filename)) log) := by
  intro sender dtype dpath fs log now
  have hd : (∃ c m, delete_file sender dtype dpath fs log now = (.err c m, fs, log)) ∨
      (∃ nm fs', delete_file sender dtype dpath fs log now =
        (.ok, fs', add_event now "delete" ("删除了 " ++ nm) (some "Server")
          (some nm) log)) := by
    unfold delete_file
    dsimp only
    repeat' split
    all_goals first
      | exact Or.inl ⟨_, _, rfl⟩
      | exact Or.inr ⟨_, _, rfl⟩
  refine ⟨?_, ?_, ?_⟩
  · intro code m herr
    rcases hd with ⟨c, m', he⟩ | ⟨nm, fs', he⟩
    · rw [he]
    · rw [he] at herr
      cases herr
  · intro hok
    rcases hd with ⟨c, m', he⟩ | ⟨nm, fs', he⟩
    · rw [he] at hok
      cases hok
    · exact ⟨nm, by rw [he]⟩
  · intro filename pool peers ua hguard
    unfold download_file
    rw [if_neg (by simp [hguard])]

/-- Witness for `event_log_on_outcome`: a concrete denied delete leaves
an empty log empty; a concrete clean download appends its event. -/
theorem event_log_on_outcome_witness :
    (delete_file "10.0.0.2" none none [] [] 0).2.2 = ([] : List Event) ∧
    (download_file "a.txt" "10.0.0.9" false [] [] [] 0 "ua").2.2 =
      add_event 0 "download" ("下载了 " ++ lastComponent "a.txt")
        (some (if "10.0.0.9" ≠ "127.0.0.1" then "10.0.0.9" else "Server"))
        (some (lastComponent "a.txt")) [] := by
  constructor
  · exact (event_log_on_outcome "10.0.0.2" none none [] [] 0).1 403
      "Permission denied" (by decide)
  · exact (event_log_on_outcome "10.0.0.9" none none [] [] 0).2.2 "a.txt" false
      [] "ua" (by decide)

theorem upload_loop_spec : ∀ (sd ts : String) (files saved fs : List String)
    (count : Nat) (last : String),
    (upload_loop sd ts files saved fs count last).2.2.1 =
      count + (files.filter fun f => f ≠ "").length ∧
    (upload_loop sd ts files saved fs count last).2.2.2 =
      (files.filter fun f => f ≠ "").getLastD last := by
  intro sd ts files
  induction files with
  | nil => intro saved fs count last; simp [upload_loop]
  | cons f rest ih =>
    intro saved fs count last
    by_cases hf : f = ""
    · subst hf
      simpa [upload_loop] using ih saved fs count last
    · have h1 := ih (saved ++ [if fs.contains (joinPath sd f) then
          joinPath sd (ts ++ f) else joinPath sd f])
        (fs ++ [if fs.contains (joinPath sd f) then joinPath sd (ts ++ f)
          else joinPath sd f]) (count + 1) f
      constructor
      · rw [upload_loop, if_pos hf]
        rw [h1.1]
        simp [hf]
        omega
      · rw [upload_loop, if_pos hf]
        rw [h1.2]
        rw [List.filter_cons_of_pos (by simpa using hf), List.getLastD_cons]

/-- C10: the `upload` event of `/upload` carries the `filename` field
exactly when a single file was saved (set to that file's name); with two
or more saved files the event's filename is absent and the message states
only the count — and an event without a filename is never masked by the
status privacy filter for any viewer; with zero saved files no event is
recorded at all. -/
theorem upload_event_filename : ∀ (files : List String) (sender : String)
    (fs : List String) (peers : Peers) (log : List Event) (now : ℤ) (ua ts : String),
    ((files.filter fun f => f ≠ "").length = 0 →
      (upload_file files sender fs peers log now ua ts).log = log) ∧
    (∀ f, (files.filter fun f => f ≠ "") = [f] →
      (upload_file files sender fs peers log now ua ts).log =
        add_event now "upload" ("上传了 " ++ f)
          (some (if !is_local_admin sender then sender else "Server"))
          (some f) log) ∧
    (2 ≤ (files.filter fun f => f ≠ "").length →
      (upload_file files sender fs peers log now ua ts).log =
        add_event now "upload"
          ("上传了 " ++ toString (files.filter fun f => f ≠ "").length ++ " 个文件")
          (some (if !is_local_admin sender then sender else "Server")) none log ∧
      ∀ (ia pool : Bool) (viewer : String),
        mask_event ia pool viewer
          ⟨now, now, "upload",
            "上传了 " ++ toString (files.filter fun f => f ≠ "").length ++ " 个文件",
            some (if !is_local_admin sender then sender else "Server"), none⟩ =
          ⟨now, now, "upload",
            "上传了 " ++ toString (files.filter fun f => f ≠ "").length ++ " 个文件",
            some (if !is_local_admin sender then sender else "Server"), none⟩) := by
  intro files sender fs peers log now ua ts
  have hspec := upload_loop_spec
    (if is_local_admin sender then RELEASE_DIR else joinPath RECEIVED_DIR sender)
    ts files [] fs 0 ""
  refine ⟨?_, ?_, ?_⟩
  · intro h0
    simp only [upload_file]
    rw [hspec.1, h0]
    simp
  · intro f hf
    simp only [upload_file]
    rw [hspec.1, hspec.2, hf]
    simp
  · intro h2
    have hn0 : 0 + (files.filter fun f => f ≠ "").length > 0 := by omega
    have hn1 : ¬ (0 + (files.filter fun f => f ≠ "").length = 1) := by omega
    constructor
    · simp only [upload_file]
      rw [hspec.1, if_pos hn0, if_neg hn1, if_neg hn1]
      simp
    · intro ia pool viewer
      simp [mask_event, truthyS]

/-- Witness for `upload_event_filename`: a single-file upload records the
filename; a two-file upload records a count-only event; an empty upload
records nothing. -/
theorem upload_event_filename_witness :
    (upload_file ["report.pdf"] "10.0.0.5" [] [] [] 0 "ua" "120000_").log =
      add_event 0 "upload" ("上传了 " ++ "report.pdf")
        (some (if !is_local_admin "10.0.0.5" then "10.0.0.5" else "Server"))
        (some "report.pdf") [] ∧
    (upload_file ["a.txt", "b.txt"] "10.0.0.5" [] [] [] 0 "ua" "120000_").log =
      add_event 0 "upload"
        ("上传了 " ++ toString ((["a.txt", "b.txt"].filter fun f => f ≠ "").length)
          ++ " 个文件")
        (some (if !is_local_admin "10.0.0.5" then "10.0.0.5" else "Server"))
        none [] ∧
    (upload_file ([] : List String) "10.0.0.5" [] [] [] 0 "ua" "120000_").log =
      ([] : List Event) := by
  refine ⟨?_, ?_, ?_⟩
  · exact (upload_event_filename ["report.pdf"] "10.0.0.5" [] [] [] 0 "ua"
      "120000_").2.1 "report.pdf" (by decide)
  · exact ((upload_event_filename ["a.txt", "b.txt"] "10.0.0.5" [] [] [] 0 "ua"
      "120000_").2.2 (by decide)).1
  · exact (upload_event_filename [] "10.0.0.5" [] [] [] 0 "ua" "120000_").1
      (by decide)

/-- C7: the traversal guard exists only on the download route. An upload
whose client-supplied filename starts with `../` is saved — the model's
`file.save` path list records a write at
`received/10.0.0.5/../evil.txt`, outside the peer's directory — and an
admin delete of type `received` with a `../../etc/passwd` path removes
that path; neither request is rejected. Only the download route rejects
(`abort(404)`) before touching the filesystem. -/
theorem traversal_reaches_filesystem :
    (upload_file ["../evil.txt"] "10.0.0.5" [] [] [] 0 "ua" "120000_").saved =
      ["received/10.0.0.5/../evil.txt"] ∧
    (upload_file ["../evil.txt"] "10.0.0.5" [] [] [] 0 "ua" "120000_").count = 1 ∧
    (delete_file "127.0.0.1" (some "received") (some "../../etc/passwd")
        ["received/../../etc/passwd"] [] 0).1 = DelResult.ok ∧
    (delete_file "127.0.0.1" (some "received") (some "../../etc/passwd")
        ["received/../../etc/passwd"] [] 0).2.1 = ([] : List String) ∧
    download_file "../x" "10.0.0.9" false [] [] [] 0 "ua" =
      (DlResult.notFound, [], []) := by
  exact ⟨by decide, by decide, by decide, by decide, by decide⟩

end PondCast
